import Mathlib

/-!
Shallow embedding of the sampling core of LogicalVision2 (`src/cpp/sampler.hpp`).

Conventions of the embedding:
* `cv::Scalar` triples holding integer coordinates become the structure `Pt`
  with three `Int` fields (column `x`, row `y`, frame index `z`).
* Loops become structural recursions; the unbounded `while` loop of
  `get_line_seg_points` and the tail recursion of `bresenham` take an explicit
  `fuel : Nat` argument.  Every property proved about them below is proved for
  all values of `fuel`, and on every concrete input used the loop terminates
  well within the supplied fuel, so the fueled functions agree with the C++
  execution there.
* Pixel values (`Vec3b` entries) are modelled as integers, image frames as a
  total lookup function; `double` arithmetic on exactly representable values
  (Scharr sums, histogram smoothing) is modelled by exact `ℚ`/`Int`
  arithmetic; `sqrt`/`log2` are modelled over `ℝ`, and comparisons of the form
  `sqrt a ≥ t` are translated through the monotonicity of `sqrt`.
-/

unseal Rat.add Rat.mul Rat.inv Rat.sub

/-- Model of `cv::Scalar` used as an integer point/vector: (column, row, frame). -/
structure Pt where
  x : Int
  y : Int
  z : Int
deriving DecidableEq, Repr

/-- Model of `out_of_canvas(point, bound)` (sampler.hpp:198): `false` iff every
coordinate lies in `[0, bound - 1]`. -/
def out_of_canvas (p bound : Pt) : Bool :=
  if 0 ≤ p.x ∧ p.x ≤ bound.x - 1 ∧
     0 ≤ p.y ∧ p.y ≤ bound.y - 1 ∧
     0 ≤ p.z ∧ p.z ≤ bound.z - 1 then false else true

/-- Model of `point_cont(p1, p2)` (sampler.hpp:213): Chebyshev adjacency, the maximum
absolute per-axis difference is `< 2`. -/
def point_cont (p1 p2 : Pt) : Bool :=
  decide (max (max (p1.x - p2.x).natAbs (p1.y - p2.y).natAbs)
              (p1.z - p2.z).natAbs < 2)

/-- Inner `for (cont = 0; cont < Adx; cont++)` loop of `bresenham`
(sampler.hpp:666) for the column-driven case.  State is
`(x, y, z, err_1, err_2)`; the result is the list of pushed points together
with the final `(x, y, z)` (out of canvas exactly when the loop ended with
`break`). -/
def bres_loop_x (inc bound : Pt) (dx2 dy2 dz2 : Int) :
    Nat → Int → Int → Int → Int → Int → List Pt × Pt
  | 0, x, y, z, _, _ => ([], ⟨x, y, z⟩)
  | n + 1, x, y, z, e1, e2 =>
    let y1 := if 0 < e1 then y + inc.y else y
    let e1a := if 0 < e1 then e1 - dx2 else e1
    let z1 := if 0 < e2 then z + inc.z else z
    let e2a := if 0 < e2 then e2 - dx2 else e2
    let e1b := e1a + dy2
    let e2b := e2a + dz2
    let x1 := x + inc.x
    let p : Pt := ⟨x1, y1, z1⟩
    if out_of_canvas p bound then ([], p)
    else
      let r := bres_loop_x inc bound dx2 dy2 dz2 n x1 y1 z1 e1b e2b
      (p :: r.1, r.2)

/-- Inner loop of `bresenham` (sampler.hpp:689) for the row-driven case. -/
def bres_loop_y (inc bound : Pt) (dx2 dy2 dz2 : Int) :
    Nat → Int → Int → Int → Int → Int → List Pt × Pt
  | 0, x, y, z, _, _ => ([], ⟨x, y, z⟩)
  | n + 1, x, y, z, e1, e2 =>
    let x1 := if 0 < e1 then x + inc.x else x
    let e1a := if 0 < e1 then e1 - dy2 else e1
    let z1 := if 0 < e2 then z + inc.z else z
    let e2a := if 0 < e2 then e2 - dy2 else e2
    let e1b := e1a + dx2
    let e2b := e2a + dz2
    let y1 := y + inc.y
    let p : Pt := ⟨x1, y1, z1⟩
    if out_of_canvas p bound then ([], p)
    else
      let r := bres_loop_y inc bound dx2 dy2 dz2 n x1 y1 z1 e1b e2b
      (p :: r.1, r.2)

/-- Inner loop of `bresenham` (sampler.hpp:713) for the frame-driven case. -/
def bres_loop_z (inc bound : Pt) (dx2 dy2 dz2 : Int) :
    Nat → Int → Int → Int → Int → Int → List Pt × Pt
  | 0, x, y, z, _, _ => ([], ⟨x, y, z⟩)
  | n + 1, x, y, z, e1, e2 =>
    let y1 := if 0 < e1 then y + inc.y else y
    let e1a := if 0 < e1 then e1 - dz2 else e1
    let x1 := if 0 < e2 then x + inc.x else x
    let e2a := if 0 < e2 then e2 - dz2 else e2
    let e1b := e1a + dy2
    let e2b := e2a + dx2
    let z1 := z + inc.z
    let p : Pt := ⟨x1, y1, z1⟩
    if out_of_canvas p bound then ([], p)
    else
      let r := bres_loop_z inc bound dx2 dy2 dz2 n x1 y1 z1 e1b e2b
      (p :: r.1, r.2)

/-- One driving-axis pass of `bresenham` (sampler.hpp:663-731): the three
`if` blocks have mutually exclusive conditions, so exactly one runs; error
terms are initialised inside the chosen block as in the source. -/
def bres_pass (bound dir inc : Pt) (cur : Pt) : List Pt × Pt :=
  let Adx : Nat := dir.x.natAbs
  let Ady : Nat := dir.y.natAbs
  let Adz : Nat := dir.z.natAbs
  let dx2 : Int := 2 * (Adx : Int)
  let dy2 : Int := 2 * (Ady : Int)
  let dz2 : Int := 2 * (Adz : Int)
  if Adx ≥ Ady ∧ Adx ≥ Adz then
    bres_loop_x inc bound dx2 dy2 dz2 Adx cur.x cur.y cur.z
      (dy2 - (Adx : Int)) (dz2 - (Adx : Int))
  else if Ady > Adx ∧ Ady ≥ Adz then
    bres_loop_y inc bound dx2 dy2 dz2 Ady cur.x cur.y cur.z
      (dx2 - (Ady : Int)) (dz2 - (Ady : Int))
  else
    bres_loop_z inc bound dx2 dy2 dz2 Adz cur.x cur.y cur.z
      (dy2 - (Adz : Int)) (dx2 - (Adz : Int))

/-- Model of `bresenham(current, direction, inc, bound, &points)` (sampler.hpp:638):
ray rasterization used by `get_line_points`.  One fuel unit per (tail-)
recursive call; the recursion continues exactly when the pass's final point
is still in canvas (a `break` always leaves an out-of-canvas final point). -/
def bresenham (bound dir inc : Pt) : Nat → Pt → List Pt
  | 0, _ => []
  | fuel + 1, cur =>
    let r := bres_pass bound dir inc cur
    if out_of_canvas r.2 bound then r.1
    else r.1 ++ bresenham bound dir inc fuel r.2

/-- Per-axis increment chosen by `get_line_points` (sampler.hpp:491):
`direction[i] > 0 ? 1 : -1`. -/
def inc_of (dir : Pt) : Pt :=
  ⟨if 0 < dir.x then 1 else -1,
   if 0 < dir.y then 1 else -1,
   if 0 < dir.z then 1 else -1⟩

/-- Componentwise negation (`inc = -1 * inc`, sampler.hpp:503). -/
def neg3 (p : Pt) : Pt := ⟨-p.x, -p.y, -p.z⟩

/-- Model of `get_line_points(point, direction, bound)` (sampler.hpp:480): full-line
rasterization; grows a ray in the sign direction of `direction`, reverses,
inserts the seed point, grows the opposite ray, and reverses again. -/
def get_line_points (fuel : Nat) (point dir bound : Pt) : List Pt :=
  if dir.x = 0 ∧ dir.y = 0 ∧ dir.z = 0 then []
  else
    let inc := inc_of dir
    let re1 := (bresenham bound dir inc fuel point).reverse ++ [point]
    let re2 := re1 ++ bresenham bound dir (neg3 inc) fuel point
    re2.reverse

/-- Inner column-driven loop of `get_line_seg_points` (sampler.hpp:565):
like `bres_loop_x` but also stops (without pushing) on reaching the target
endpoint. -/
def seg_loop_x (inc bound tgt : Pt) (dx2 dy2 dz2 : Int) :
    Nat → Int → Int → Int → Int → Int → List Pt × Pt
  | 0, x, y, z, _, _ => ([], ⟨x, y, z⟩)
  | n + 1, x, y, z, e1, e2 =>
    let y1 := if 0 < e1 then y + inc.y else y
    let e1a := if 0 < e1 then e1 - dx2 else e1
    let z1 := if 0 < e2 then z + inc.z else z
    let e2a := if 0 < e2 then e2 - dx2 else e2
    let e1b := e1a + dy2
    let e2b := e2a + dz2
    let x1 := x + inc.x
    let p : Pt := ⟨x1, y1, z1⟩
    if out_of_canvas p bound = false ∧ p ≠ tgt then
      let r := seg_loop_x inc bound tgt dx2 dy2 dz2 n x1 y1 z1 e1b e2b
      (p :: r.1, r.2)
    else ([], p)

/-- Inner row-driven loop of `get_line_seg_points` (sampler.hpp:589). -/
def seg_loop_y (inc bound tgt : Pt) (dx2 dy2 dz2 : Int) :
    Nat → Int → Int → Int → Int → Int → List Pt × Pt
  | 0, x, y, z, _, _ => ([], ⟨x, y, z⟩)
  | n + 1, x, y, z, e1, e2 =>
    let x1 := if 0 < e1 then x + inc.x else x
    let e1a := if 0 < e1 then e1 - dy2 else e1
    let z1 := if 0 < e2 then z + inc.z else z
    let e2a := if 0 < e2 then e2 - dy2 else e2
    let e1b := e1a + dx2
    let e2b := e2a + dz2
    let y1 := y + inc.y
    let p : Pt := ⟨x1, y1, z1⟩
    if out_of_canvas p bound = false ∧ p ≠ tgt then
      let r := seg_loop_y inc bound tgt dx2 dy2 dz2 n x1 y1 z1 e1b e2b
      (p :: r.1, r.2)
    else ([], p)

/-- Inner frame-driven loop of `get_line_seg_points` (sampler.hpp:613). -/
def seg_loop_z (inc bound tgt : Pt) (dx2 dy2 dz2 : Int) :
    Nat → Int → Int → Int → Int → Int → List Pt × Pt
  | 0, x, y, z, _, _ => ([], ⟨x, y, z⟩)
  | n + 1, x, y, z, e1, e2 =>
    let y1 := if 0 < e1 then y + inc.y else y
    let e1a := if 0 < e1 then e1 - dz2 else e1
    let x1 := if 0 < e2 then x + inc.x else x
    let e2a := if 0 < e2 then e2 - dz2 else e2
    let e1b := e1a + dy2
    let e2b := e2a + dx2
    let z1 := z + inc.z
    let p : Pt := ⟨x1, y1, z1⟩
    if out_of_canvas p bound = false ∧ p ≠ tgt then
      let r := seg_loop_z inc bound tgt dx2 dy2 dz2 n x1 y1 z1 e1b e2b
      (p :: r.1, r.2)
    else ([], p)

/-- One driving-axis pass of the segment stepping loop (sampler.hpp:562-632):
as `bres_pass`, with the additional stop-at-target condition. -/
def seg_pass (bound tgt inc : Pt) (Adx Ady Adz : Nat) (dx2 dy2 dz2 : Int)
    (cur : Pt) : List Pt × Pt :=
  if Adx ≥ Ady ∧ Adx ≥ Adz then
    seg_loop_x inc bound tgt dx2 dy2 dz2 Adx cur.x cur.y cur.z
      (dy2 - (Adx : Int)) (dz2 - (Adx : Int))
  else if Ady > Adx ∧ Ady ≥ Adz then
    seg_loop_y inc bound tgt dx2 dy2 dz2 Ady cur.x cur.y cur.z
      (dx2 - (Ady : Int)) (dz2 - (Ady : Int))
  else
    seg_loop_z inc bound tgt dx2 dy2 dz2 Adz cur.x cur.y cur.z
      (dy2 - (Adz : Int)) (dx2 - (Adz : Int))

/-- Outer `while` loop of `get_line_seg_points` (sampler.hpp:560): repeats a
driving-axis pass (error terms re-initialised each pass, as in the source)
while the current point is in canvas and differs from the target. -/
def seg_while (bound tgt inc : Pt) (Adx Ady Adz : Nat) (dx2 dy2 dz2 : Int) :
    Nat → Pt → List Pt
  | 0, _ => []
  | fuel + 1, cur =>
    if out_of_canvas cur bound = false ∧ cur ≠ tgt then
      let r := seg_pass bound tgt inc Adx Ady Adz dx2 dy2 dz2 cur
      r.1 ++ seg_while bound tgt inc Adx Ady Adz dx2 dy2 dz2 fuel r.2
    else []

/-- Model of `get_line_seg_points(start, end, bound)` (sampler.hpp:515): returns `[]`
when the endpoints coincide or both are out of canvas; swaps the endpoints
when `start` is out of canvas and `end` is not (the `SWAP` macro is an exact
arithmetic swap over unbounded integers); pushes the (possibly swapped) start,
runs the bounded Bresenham stepping loop, and finally pushes the (possibly
swapped) end unconditionally. -/
def get_line_seg_points (fuel : Nat) (s e bound : Pt) : List Pt :=
  if s.x = e.x ∧ s.y = e.y ∧ s.z = e.z then []
  else if out_of_canvas s bound = true ∧ out_of_canvas e bound = true then []
  else
    let s1 := if out_of_canvas s bound = true ∧ out_of_canvas e bound = false
              then e else s
    let t1 := if out_of_canvas s bound = true ∧ out_of_canvas e bound = false
              then s else e
    let dx := t1.x - s1.x
    let dy := t1.y - s1.y
    let dz := t1.z - s1.z
    let inc : Pt := ⟨if 0 < dx then 1 else -1,
                     if 0 < dy then 1 else -1,
                     if 0 < dz then 1 else -1⟩
    let Adx : Nat := dx.natAbs
    let Ady : Nat := dy.natAbs
    let Adz : Nat := dz.natAbs
    s1 :: (seg_while bound t1 inc Adx Ady Adz
            (2 * (Adx : Int)) (2 * (Ady : Int)) (2 * (Adz : Int)) fuel s1
          ++ [t1])

/-- Polygon-to-segments expansion of `get_ellipse_points`
(sampler.hpp:831-840): each pair of consecutive polygon vertices contributes
its `get_line_seg_points` rasterization, all at the centre's frame index
(`p0` is the running previous vertex). -/
def ellipse_segs (fuel : Nat) (centre bound : Pt) :
    Int × Int → List (Int × Int) → List Pt
  | _, [] => []
  | p0, p :: rest =>
    get_line_seg_points fuel ⟨p0.1, p0.2, centre.z⟩ ⟨p.1, p.2, centre.z⟩ bound
      ++ ellipse_segs fuel centre bound p rest

/-- Modelled from the spec: `get_ellipse_points(centre, param, bound)`
(sampler.hpp:810) first calls OpenCV's `ellipse2Poly` — an external routine
outside this repository's source, described by the spec only as a polygon
approximation of the ellipse outline with a bounded 3° vertex-angle step —
and then expands consecutive vertices into segment points via
`get_line_seg_points`.  The missing `ellipse2Poly` vertex generation (and the
axis-normalisation feeding it) is abstracted: the embedding takes the vertex
list `v` as an argument, and the theorems below hold for every possible
vertex list, hence in particular for the one `ellipse2Poly` produces.  An
empty vertex list returns the empty result (sampler.hpp:823-824); a singleton
list makes the expansion loop run zero times. -/
def get_ellipse_points_of_poly (fuel : Nat) (centre : Pt)
    (v : List (Int × Int)) (bound : Pt) : List Pt :=
  match v with
  | [] => []
  | p0 :: rest => ellipse_segs fuel centre bound p0 rest

/-- Coordinate of the driving axis (the axis of largest `|direction|`
component), following the tie-breaking of `bresenham`'s `if` chain:
column first, then row, then frame. -/
def drive_coord (dir : Pt) (p : Pt) : Int :=
  if dir.x.natAbs ≥ dir.y.natAbs ∧ dir.x.natAbs ≥ dir.z.natAbs then p.x
  else if dir.y.natAbs > dir.x.natAbs ∧ dir.y.natAbs ≥ dir.z.natAbs then p.y
  else p.z

/-- Signed unit step of the driving axis for a line through `dir`
(the component of `inc_of dir` on the driving axis). -/
def drive_inc (dir : Pt) : Int := drive_coord dir (inc_of dir)

/-- The frame sequence `vector<Mat>*`: width, height, frame count, and a total
pixel lookup `pix frame row col channel` (`(*images)[frame].at<Vec3b>(row, col)[channel]`). -/
structure Frames where
  w : Int
  h : Int
  d : Int
  pix : Int → Int → Int → Fin 3 → Int

/-- The `Scalar bound(cols, rows, size)` built by every sampler. -/
def bound_of (F : Frames) : Pt := ⟨F.w, F.h, F.d⟩

/-- Pixel channel value at a point: `(*images)[pos[2]].at<Vec3b>(pos[1], pos[0])[ch]`. -/
def pix_at (F : Frames) (p : Pt) (ch : Fin 3) : Int := F.pix p.z p.y p.x ch

/-- Value `1024 * G^2`, where `G` is the `double` returned by
`cv_imgs_point_scharr(images, point)` (sampler.hpp:299).  The source computes
`G = sqrt(Gx^2 + Gy^2)` with `Gx, Gy` multiples of `1/32` (the 3x3 Scharr
kernels divided by 32; all values exactly representable as doubles), so `G` is
determined by the integer `gx32^2 + gy32^2 = 1024 * G^2`, which is what this
definition returns; the border guard returns 0.  Comparisons `G >= t` are
recovered via monotonicity of `sqrt` (see `grad_geq_T_correct`). -/
def scharr_sq1024 (F : Frames) (p : Pt) : Int :=
  if p.x < 1 ∨ p.y < 1 ∨ p.x > F.w - 2 ∨ p.y > F.h - 2 then 0
  else
    let a : Int → Int → Int := fun i j => F.pix p.z (p.y - 1 + i) (p.x - 1 + j) 0
    let gx32 := (-3) * a 0 0 + (-10) * a 0 1 + (-3) * a 0 2
                + 3 * a 2 0 + 10 * a 2 1 + 3 * a 2 2
    let gy32 := (-3) * a 0 0 + 3 * a 0 2
                + (-10) * a 1 0 + 10 * a 1 2
                + (-3) * a 2 0 + 3 * a 2 2
    gx32 * gx32 + gy32 * gy32

/-- The `double` value returned by `cv_imgs_point_scharr`:
`sqrt(Gx^2 + Gy^2) = sqrt(1024 * G^2) / 32`. -/
noncomputable def cv_imgs_point_scharr (F : Frames) (p : Pt) : ℝ :=
  Real.sqrt ((scharr_sq1024 F p : ℝ)) / 32

/-- The comparison `cv_imgs_point_scharr ... >= T` expressed on the exact
integer `scharr_sq1024` value: `sqrt(gs)/32 ≥ T ↔ T ≤ 0 ∨ 1024*T^2 ≤ gs`
(for `gs ≥ 0`, which always holds). -/
def grad_geq_T (gs : Int) (T : ℚ) : Bool :=
  decide (T ≤ 0 ∨ 1024 * T ^ 2 ≤ (gs : ℚ))

/-- Model of `bound_scalar_3d(point, radius, bound)` (sampler.hpp:417): clipped box
corners around `point`. -/
def bound_scalar_3d (point radius bound : Pt) : Pt × Pt :=
  (⟨if point.x - radius.x < 0 then 0 else point.x - radius.x,
    if point.y - radius.y < 0 then 0 else point.y - radius.y,
    if point.z - radius.z < 0 then 0 else point.z - radius.z⟩,
   ⟨if point.x + radius.x ≥ bound.x then bound.x - 1 else point.x + radius.x,
    if point.y + radius.y ≥ bound.y then bound.y - 1 else point.y + radius.y,
    if point.z + radius.z ≥ bound.z then bound.z - 1 else point.z + radius.z⟩)

/-- The integer range `a, a+1, ..., b` traversed by the neighborhood loops. -/
def int_range (a b : Int) : List Int :=
  (List.range (b + 1 - a).toNat).map (fun k => a + (k : Int))

/-- The ellipsoid membership test of the neighborhood loops
(sampler.hpp:244-259): an axis with radius `≤ 0` contributes 0. -/
def ellipsoid_le_one (point radius : Pt) (c r i : Int) : Prop :=
  (if 0 < radius.x then (((c : ℚ) - point.x) / radius.x) ^ 2 else 0)
  + (if 0 < radius.y then (((r : ℚ) - point.y) / radius.y) ^ 2 else 0)
  + (if 0 < radius.z then (((i : ℚ) - point.z) / radius.z) ^ 2 else 0) ≤ 1

instance (point radius : Pt) (c r i : Int) :
    Decidable (ellipsoid_le_one point radius c r i) := by
  unfold ellipsoid_le_one; infer_instance

/-- The `point_set` collected by `cv_imgs_point_var_loc` /
`cv_imgs_point_color_loc` (sampler.hpp:241-263): all grid points of the
clipped box satisfying the ellipsoid inequality, in frame-row-column loop
order. -/
def loc_point_set (F : Frames) (point radius : Pt) : List Pt :=
  let b := bound_scalar_3d point radius (bound_of F)
  (int_range b.1.z b.2.z).flatMap (fun i =>
    (int_range b.1.y b.2.y).flatMap (fun r =>
      (int_range b.1.x b.2.x).filterMap (fun c =>
        if ellipsoid_le_one point radius c r i then some (⟨c, r, i⟩ : Pt)
        else none)))

/-- The radicand `var[ch] / (count - 1)` of channel `ch` inside
`cv_imgs_point_var_loc` (sampler.hpp:293-295), where
`avg[ch] = (Σ pixel[ch]) / count` and `var[ch] = Σ (pixel[ch] - avg[ch])^2`.
Exact rational arithmetic in place of `double`. -/
def cv_imgs_point_var_loc_radicand (F : Frames) (point radius : Pt)
    (ch : Fin 3) : ℚ :=
  let ps := loc_point_set F point radius
  let count : ℚ := (ps.length : ℚ)
  let avg : ℚ := ((ps.map (fun p => (pix_at F p ch : ℚ))).sum) / count
  let v : ℚ := (ps.map (fun p => ((pix_at F p ch : ℚ) - avg) ^ 2)).sum
  v / (count - 1)

/-- The `double` returned by `cv_imgs_point_var_loc` (sampler.hpp:225):
`sqrt(var[0]/(count-1)) + sqrt(var[1]/(count-1)) + sqrt(var[2]/(count-1))`. -/
noncomputable def cv_imgs_point_var_loc (F : Frames) (point radius : Pt) : ℝ :=
  Real.sqrt ((cv_imgs_point_var_loc_radicand F point radius 0 : ℝ))
  + Real.sqrt ((cv_imgs_point_var_loc_radicand F point radius 1 : ℝ))
  + Real.sqrt ((cv_imgs_point_var_loc_radicand F point radius 2 : ℝ))

/-- Channel `ch` of `cv_imgs_point_color_loc(images, point, radius)`
(sampler.hpp:339): average of the channel over the ellipsoidal neighborhood. -/
def cv_imgs_point_color_loc (F : Frames) (point radius : Pt) (ch : Fin 3) : ℚ :=
  let ps := loc_point_set F point radius
  ((ps.map (fun p => (pix_at F p ch : ℚ))).sum) / (ps.length : ℚ)

/-- Sample variance following the spec's words, for comparison with the
source-derived `cv_imgs_point_var_loc_radicand`:
`Σ(x - mean)^2 / (n - 1)` with `mean = Σx/n` over a list of channel values. -/
def spec_sample_var (vals : List ℚ) : ℚ :=
  ((vals.map (fun v => (v - vals.sum / (vals.length : ℚ)) ^ 2)).sum)
    / ((vals.length : ℚ) - 1)

/-- Loop state of the gradient-threshold thinning loop of
`cv_line_pts_scharr_geq_T` / `cv_line_seg_pts_scharr_geq_T`
(sampler.hpp:856-859): output so far, `tmp_last`, `tmp_max`, `tmp_g`
(as the exact `1024*G^2` integer), and the `cont` flag.  The C++ locals are
uninitialised before the first qualifying point; they are only read while
`cont` is true, so the arbitrary initial values below are never observed. -/
structure ThinState where
  re : List Pt
  tmp_last : Pt
  tmp_max : Pt
  tmp_g : Int
  cont : Bool
deriving DecidableEq, Repr

/-- One iteration of the thinning loop (sampler.hpp:860-883).  `grad >= tmp_g`
on the `double` gradients is equivalent to `gs ≥ tmp_g` on the scaled squares
by monotonicity of `sqrt`. -/
def thin_step (F : Frames) (T : ℚ) (s : ThinState) (pt : Pt) : ThinState :=
  let gs := scharr_sq1024 F pt
  if grad_geq_T gs T = true then
    if s.cont = false then
      ⟨s.re, pt, pt, gs, true⟩
    else if point_cont s.tmp_last pt = true then
      if gs ≥ s.tmp_g then ⟨s.re, pt, pt, gs, true⟩
      else ⟨s.re, pt, s.tmp_max, s.tmp_g, true⟩
    else
      ⟨s.re ++ [s.tmp_max], s.tmp_last, s.tmp_max, s.tmp_g, false⟩
  else s

/-- Model of `cv_line_pts_scharr_geq_T(images, point, direction, grad_threshold)`
(sampler.hpp:845).  The source dereferences `line_points.begin()` and
`line_points.rbegin()` unconditionally; on an empty rasterization that access
has no defined result, modelled here as `none`. -/
def cv_line_pts_scharr_geq_T (F : Frames) (point dir : Pt) (T : ℚ)
    (fuel : Nat) : Option (List Pt) :=
  let lps := get_line_points fuel point dir (bound_of F)
  match lps with
  | [] => none
  | first :: rest =>
    let s1 := (first :: rest).foldl (thin_step F T)
      ⟨[first], ⟨0, 0, 0⟩, ⟨0, 0, 0⟩, 0, false⟩
    some (s1.re ++ [(first :: rest).getLast (List.cons_ne_nil _ _)])

/-- Model of `cv_line_seg_pts_scharr_geq_T(images, start, end, grad_threshold)`
(sampler.hpp:888); same thinning over the segment rasterization. -/
def cv_line_seg_pts_scharr_geq_T (F : Frames) (s e : Pt) (T : ℚ)
    (fuel : Nat) : Option (List Pt) :=
  let lps := get_line_seg_points fuel s e (bound_of F)
  match lps with
  | [] => none
  | first :: rest =>
    let s1 := (first :: rest).foldl (thin_step F T)
      ⟨[first], ⟨0, 0, 0⟩, ⟨0, 0, 0⟩, 0, false⟩
    some (s1.re ++ [(first :: rest).getLast (List.cons_ne_nil _ _)])

/-- Error taxonomy of the spec's §7 relevant to `fit_ellipse`. -/
inductive SamplerError where
  | invalidArgument
deriving DecidableEq, Repr

/-- Argument guard of `fit_ellipse(points, centre, param)` (sampler.hpp:739):
`assert(points.size() >= 5)`.  A failed assertion aborts instead of returning
fitted parameters; the spec's name for this failure is `InvalidArgument`.  The
numeric body (Fitzgibbon fit via armadillo's `eig_gen` generalized
eigen-decomposition, an external linear-algebra capability) is outside the
modelled core; success carries no payload here. -/
def fit_ellipse (points : List Pt) : Except SamplerError Unit :=
  if 5 ≤ points.length then Except.ok ()
  else Except.error SamplerError.invalidArgument

/-- Truncation toward zero of `q / 8`: the `int f = lab[channel]/8;`
double-to-int conversion of `compare_hist` (sampler.hpp:951). -/
def trunc_div8 (q : ℚ) : Int :=
  if 0 ≤ q / 8 then ⌊q / 8⌋ else ⌈q / 8⌉

/-- Histogram bin counts of `compare_hist` (sampler.hpp:946-971): frequency of
colors (exact-pixel mean colors, radius `(0,0,0)`) of `P` whose channel-`ch`
bin is `f`. -/
def hist_freq (F : Frames) (P : List Pt) (ch : Fin 3) (f : Int) : Nat :=
  (P.map (fun p => cv_imgs_point_color_loc F p ⟨0, 0, 0⟩ ch)).countP
    (fun v => decide (trunc_div8 v = f))

/-- Row total `arma::sum(freq.row(ch))`: total of the 32 bins. -/
def hist_row_sum (F : Frames) (P : List Pt) (ch : Fin 3) : Nat :=
  ((List.range 32).map (fun f => hist_freq F P ch (f : Int))).sum

/-- Smoothed histogram entry (sampler.hpp:980-983):
`(freq + 0.0001) / (rowsum + 0.0032)`. -/
def hist_smooth (F : Frames) (P : List Pt) (ch : Fin 3) (f : Int) : ℚ :=
  ((hist_freq F P ch f : ℚ) + 1 / 10000)
    / ((hist_row_sum F P ch : ℚ) + 32 / 10000)

/-- One-directional KL term (sampler.hpp:993):
`Σ_f h1(f) * log2(h1(f)/h2(f))` over the 32 bins. -/
noncomputable def kl_dir (h1 h2 : Int → ℚ) : ℝ :=
  ((List.range 32).map
    (fun f => ((h1 (f : Int) : ℝ)) *
      Real.logb 2 ((h1 (f : Int) : ℝ) / (h2 (f : Int) : ℝ)))).sum

/-- Channel divergence `kls[ch] = (D_1_2 + D_2_1) / 2` (sampler.hpp:996). -/
noncomputable def kl_sym (h1 h2 : Int → ℚ) : ℝ :=
  (kl_dir h1 h2 + kl_dir h2 h1) / 2

/-- Model of `compare_hist(images, points_1, points_2)` (sampler.hpp:932): quadratic
mean over the three channels of the averaged symmetric KL divergences. -/
noncomputable def compare_hist (F : Frames) (P1 P2 : List Pt) : ℝ :=
  let k0 := kl_sym (hist_smooth F P1 0) (hist_smooth F P2 0)
  let k1 := kl_sym (hist_smooth F P1 1) (hist_smooth F P2 1)
  let k2 := kl_sym (hist_smooth F P1 2) (hist_smooth F P2 2)
  Real.sqrt ((k0 ^ 2 + k1 ^ 2 + k2 ^ 2) / 3)

/-- Concrete 7x5 single-frame sequence with a vertical step edge: channel
values 255 at columns `≥ 3`, else 0. -/
def edge_frames : Frames :=
  ⟨7, 5, 1, fun _ _ c _ => if 3 ≤ c then 255 else 0⟩

/-- Concrete 3x3 single-frame sequence with constant pixel value 7. -/
def const_frames : Frames :=
  ⟨3, 3, 1, fun _ _ _ _ => 7⟩

example : get_line_seg_points 100 ⟨0,0,0⟩ ⟨4,0,0⟩ ⟨10,10,10⟩ =
    [⟨0,0,0⟩, ⟨1,0,0⟩, ⟨2,0,0⟩, ⟨3,0,0⟩, ⟨4,0,0⟩] := by decide

example : get_line_points 100 ⟨2,0,0⟩ ⟨1,0,0⟩ ⟨5,1,1⟩ =
    [⟨0,0,0⟩, ⟨1,0,0⟩, ⟨2,0,0⟩, ⟨3,0,0⟩, ⟨4,0,0⟩] := by decide

example : get_line_seg_points 100 ⟨-1,0,0⟩ ⟨0,0,0⟩ ⟨10,10,10⟩ =
    [⟨0,0,0⟩, ⟨-1,0,0⟩] := by decide

example : scharr_sq1024 edge_frames ⟨3,2,0⟩ = 16646400 := by decide

example : cv_line_seg_pts_scharr_geq_T edge_frames ⟨0,2,0⟩ ⟨6,2,0⟩ 5 40 =
    some [⟨0,2,0⟩, ⟨6,2,0⟩] := by decide

example : (loc_point_set const_frames ⟨1,1,0⟩ ⟨1,1,0⟩).length = 5 := by decide

/-! ## Theorems -/

/-- C8: `get_line_points` with the zero direction vector `(0,0,0)` returns an
empty sequence for every seed point, bound, and fuel — the degenerate case is
handled by returning empty, not by raising an error. -/
theorem c8_zero_direction (fuel : Nat) (point bound : Pt) :
    get_line_points fuel point ⟨0, 0, 0⟩ bound = [] := by
  unfold get_line_points
  simp

/-- C6: `fit_ellipse` on an input of fewer than 5 points fails with
`InvalidArgument` rather than returning a fitted centre and parameters. -/
theorem c6_fit_ellipse_lt5 (points : List Pt) (h : points.length < 5) :
    fit_ellipse points = Except.error SamplerError.invalidArgument := by
  unfold fit_ellipse
  rw [if_neg (by omega)]

/-- C6 witness: a concrete 4-point input. -/
theorem c6_fit_ellipse_lt5_witness :
    ([(⟨0,0,0⟩ : Pt), ⟨1,0,0⟩, ⟨0,1,0⟩, ⟨1,1,0⟩].length < 5) ∧
    fit_ellipse [⟨0,0,0⟩, ⟨1,0,0⟩, ⟨0,1,0⟩, ⟨1,1,0⟩]
      = Except.error SamplerError.invalidArgument :=
  ⟨by decide, c6_fit_ellipse_lt5 _ (by decide)⟩

/-- C9: `cv_imgs_point_scharr` returns exactly 0 whenever the point's column
is `< 1` or `> width - 2`, or its row is `< 1` or `> height - 2` (within one
pixel of the frame border or outside it). -/
theorem c9_scharr_border_zero (F : Frames) (p : Pt)
    (h : p.x < 1 ∨ p.y < 1 ∨ p.x > F.w - 2 ∨ p.y > F.h - 2) :
    cv_imgs_point_scharr F p = 0 := by
  unfold cv_imgs_point_scharr scharr_sq1024
  rw [if_pos h]
  simp

/-- C9 witness: the corner point `(0,0,0)` of the concrete 7x5 frames. -/
theorem c9_scharr_border_zero_witness :
    ((0 : Int) < 1 ∨ (0 : Int) < 1 ∨ (0 : Int) > edge_frames.w - 2 ∨
      (0 : Int) > edge_frames.h - 2) ∧
    cv_imgs_point_scharr edge_frames ⟨0, 0, 0⟩ = 0 :=
  ⟨by decide, c9_scharr_border_zero edge_frames ⟨0, 0, 0⟩ (by decide)⟩

/-- C2 counterexample: the claim as stated fails (a) for coinciding endpoints
(in canvas, yet the result is empty rather than ending in `end`), and (b)
when `start` is out of canvas and `end` is in canvas: the source swaps the
endpoints, so the final element is the original `start`, not `end`. -/
theorem c2_counterexample :
    (out_of_canvas ⟨0,0,0⟩ ⟨1,1,1⟩ = false ∧
      get_line_seg_points 100 ⟨0,0,0⟩ ⟨0,0,0⟩ ⟨1,1,1⟩ = []) ∧
    (out_of_canvas ⟨0,0,0⟩ ⟨10,10,10⟩ = false ∧
      (get_line_seg_points 100 ⟨-1,0,0⟩ ⟨0,0,0⟩ ⟨10,10,10⟩).getLast?
        = some ⟨-1,0,0⟩ ∧
      (⟨-1,0,0⟩ : Pt) ≠ (⟨0,0,0⟩ : Pt)) := by
  decide

/-- C2 (amended): for every pair of distinct points with `start` in canvas,
the segment rasterization is non-empty and its last element equals `end`. -/
theorem c2_amended (fuel : Nat) (s e bound : Pt) (hne : s ≠ e)
    (hs : out_of_canvas s bound = false) :
    get_line_seg_points fuel s e bound ≠ [] ∧
    (get_line_seg_points fuel s e bound).getLast? = some e := by
  have h1 : ¬(s.x = e.x ∧ s.y = e.y ∧ s.z = e.z) := by
    intro hc
    apply hne
    cases s
    cases e
    simp_all
  constructor
  · simp [get_line_seg_points, h1, hs]
  · simp only [get_line_seg_points, h1, hs]
    simp only [if_false, Bool.false_eq_true, false_and, if_neg,
      reduceIte]
    rw [← List.cons_append, List.getLast?_concat]

/-- C2 amended witness: the segment `(0,0,0) → (4,0,0)` in a `10^3` canvas. -/
theorem c2_amended_witness :
    ((⟨0,0,0⟩ : Pt) ≠ (⟨4,0,0⟩ : Pt)) ∧
    out_of_canvas ⟨0,0,0⟩ ⟨10,10,10⟩ = false ∧
    (get_line_seg_points 100 ⟨0,0,0⟩ ⟨4,0,0⟩ ⟨10,10,10⟩ ≠ [] ∧
      (get_line_seg_points 100 ⟨0,0,0⟩ ⟨4,0,0⟩ ⟨10,10,10⟩).getLast?
        = some ⟨4,0,0⟩) :=
  ⟨by decide, by decide,
    c2_amended 100 ⟨0,0,0⟩ ⟨4,0,0⟩ ⟨10,10,10⟩ (by decide) (by decide)⟩

/-- C3 counterexample: the claim as stated fails — `get_line_points` pushes
the seed point unconditionally, so an out-of-canvas seed appears in the
result; `get_line_seg_points` appends the final endpoint unconditionally, so
an out-of-canvas `end` appears in the result. -/
theorem c3_counterexample :
    ((⟨-5,0,0⟩ : Pt) ∈ get_line_points 100 ⟨-5,0,0⟩ ⟨1,0,0⟩ ⟨1,1,1⟩ ∧
      out_of_canvas ⟨-5,0,0⟩ ⟨1,1,1⟩ = true) ∧
    ((⟨5,0,0⟩ : Pt) ∈ get_line_seg_points 100 ⟨0,0,0⟩ ⟨5,0,0⟩ ⟨3,1,1⟩ ∧
      out_of_canvas ⟨5,0,0⟩ ⟨3,1,1⟩ = true) := by
  decide

/-- Radicand of `cv_imgs_point_var_loc` equals the spec-worded sample
variance of the channel values over the ellipsoidal neighborhood. -/
theorem radicand_eq_spec (F : Frames) (point radius : Pt) (ch : Fin 3) :
    cv_imgs_point_var_loc_radicand F point radius ch
      = spec_sample_var ((loc_point_set F point radius).map
          (fun p => (pix_at F p ch : ℚ))) := by
  unfold cv_imgs_point_var_loc_radicand spec_sample_var
  simp [List.map_map, Function.comp_def]

/-- C5: for an in-bounds point whose ellipsoidal neighborhood has `n ≥ 2`
points, `cv_imgs_point_var_loc` returns the sum over the three color channels
of `sqrt(Σ(x - mean)² / (n - 1))` — the sum of per-channel sample standard
deviations, not a combined variance. -/
theorem c5_var_loc_formula (F : Frames) (point radius : Pt)
    (hin : out_of_canvas point (bound_of F) = false)
    (hn : 2 ≤ (loc_point_set F point radius).length) :
    cv_imgs_point_var_loc F point radius
      = Real.sqrt ((spec_sample_var ((loc_point_set F point radius).map
            (fun p => (pix_at F p 0 : ℚ))) : ℝ))
        + Real.sqrt ((spec_sample_var ((loc_point_set F point radius).map
            (fun p => (pix_at F p 1 : ℚ))) : ℝ))
        + Real.sqrt ((spec_sample_var ((loc_point_set F point radius).map
            (fun p => (pix_at F p 2 : ℚ))) : ℝ)) := by
  unfold cv_imgs_point_var_loc
  rw [radicand_eq_spec, radicand_eq_spec, radicand_eq_spec]

/-- C5 witness: point `(1,1,0)`, radius `(1,1,0)` in the constant 3x3 frame
(a 5-point diamond neighborhood). -/
theorem c5_var_loc_formula_witness :
    out_of_canvas ⟨1,1,0⟩ (bound_of const_frames) = false ∧
    2 ≤ (loc_point_set const_frames ⟨1,1,0⟩ ⟨1,1,0⟩).length ∧
    cv_imgs_point_var_loc const_frames ⟨1,1,0⟩ ⟨1,1,0⟩
      = Real.sqrt ((spec_sample_var ((loc_point_set const_frames ⟨1,1,0⟩ ⟨1,1,0⟩).map
            (fun p => (pix_at const_frames p 0 : ℚ))) : ℝ))
        + Real.sqrt ((spec_sample_var ((loc_point_set const_frames ⟨1,1,0⟩ ⟨1,1,0⟩).map
            (fun p => (pix_at const_frames p 1 : ℚ))) : ℝ))
        + Real.sqrt ((spec_sample_var ((loc_point_set const_frames ⟨1,1,0⟩ ⟨1,1,0⟩).map
            (fun p => (pix_at const_frames p 2 : ℚ))) : ℝ)) :=
  ⟨by decide, by decide,
    c5_var_loc_formula const_frames ⟨1,1,0⟩ ⟨1,1,0⟩ (by decide) (by decide)⟩

/-- The averaged symmetric KL term is symmetric in its two histograms. -/
theorem kl_sym_comm (h1 h2 : Int → ℚ) : kl_sym h1 h2 = kl_sym h2 h1 := by
  unfold kl_sym
  ring

/-- C7: `compare_hist` is exactly symmetric in its two (non-empty) point-set
arguments. -/
theorem c7_compare_hist_symm (F : Frames) (P1 P2 : List Pt)
    (h1 : P1 ≠ []) (h2 : P2 ≠ []) :
    compare_hist F P1 P2 = compare_hist F P2 P1 := by
  simp only [compare_hist]
  rw [kl_sym_comm (hist_smooth F P1 0), kl_sym_comm (hist_smooth F P1 1),
      kl_sym_comm (hist_smooth F P1 2)]

/-- C7 witness: two non-empty singleton point sets over the constant frame. -/
theorem c7_compare_hist_symm_witness :
    ([(⟨0,0,0⟩ : Pt)] ≠ ([] : List Pt)) ∧
    ([(⟨1,1,0⟩ : Pt)] ≠ ([] : List Pt)) ∧
    compare_hist const_frames [⟨0,0,0⟩] [⟨1,1,0⟩]
      = compare_hist const_frames [⟨1,1,0⟩] [⟨0,0,0⟩] :=
  ⟨by decide, by decide,
    c7_compare_hist_symm const_frames [⟨0,0,0⟩] [⟨1,1,0⟩] (by decide) (by decide)⟩

/-- C1: evaluation of `cv_line_seg_pts_scharr_geq_T` at the failing input.
The rasterized segment is the 7-point row `(0,2,0)..(6,2,0)`; the only points
with Scharr gradient `≥ 5` are `(2,2,0)` and `(3,2,0)`, which form a single
Chebyshev-connected run whose maximum-gradient point is `(3,2,0)` (the later
of two equal-gradient points).  The claim requires `(3,2,0)` in the output;
the code returns only the two anchors, because `tmp_max` is pushed only when
a later non-adjacent qualifying point is encountered, so the final open run
is dropped. -/
theorem c1_thinning_drops_final_run :
    cv_line_seg_pts_scharr_geq_T edge_frames ⟨0,2,0⟩ ⟨6,2,0⟩ 5 40
      = some [⟨0,2,0⟩, ⟨6,2,0⟩] ∧
    get_line_seg_points 40 ⟨0,2,0⟩ ⟨6,2,0⟩ (bound_of edge_frames)
      = [⟨0,2,0⟩, ⟨1,2,0⟩, ⟨2,2,0⟩, ⟨3,2,0⟩, ⟨4,2,0⟩, ⟨5,2,0⟩, ⟨6,2,0⟩] ∧
    grad_geq_T (scharr_sq1024 edge_frames ⟨2,2,0⟩) 5 = true ∧
    grad_geq_T (scharr_sq1024 edge_frames ⟨3,2,0⟩) 5 = true ∧
    scharr_sq1024 edge_frames ⟨3,2,0⟩ ≥ scharr_sq1024 edge_frames ⟨2,2,0⟩ ∧
    point_cont ⟨2,2,0⟩ ⟨3,2,0⟩ = true ∧
    (∀ q ∈ [(⟨0,2,0⟩ : Pt), ⟨1,2,0⟩, ⟨4,2,0⟩, ⟨5,2,0⟩, ⟨6,2,0⟩],
      grad_geq_T (scharr_sq1024 edge_frames q) 5 = false) ∧
    (⟨3,2,0⟩ : Pt) ∉ [(⟨0,2,0⟩ : Pt), ⟨6,2,0⟩] := by
  decide

/-! ## Helper lemmas about the rasterization loops -/

/-- Every point pushed by the column-driven line loop is in canvas. -/
theorem bres_loop_x_mem (inc bound : Pt) (dx2 dy2 dz2 : Int) :
    ∀ n x y z e1 e2 q,
      q ∈ (bres_loop_x inc bound dx2 dy2 dz2 n x y z e1 e2).1 →
      out_of_canvas q bound = false := by
  intro n
  induction n with
  | zero =>
    intro x y z e1 e2 q hq
    simp [bres_loop_x] at hq
  | succ n ih =>
    intro x y z e1 e2 q hq
    simp only [bres_loop_x] at hq
    split_ifs at hq
    all_goals
      first
        | exact absurd hq (List.not_mem_nil _)
        | (rcases List.mem_cons.mp hq with h | h
           · subst h
             simp_all
           · exact ih _ _ _ _ _ _ h)

/-- Every point pushed by the row-driven line loop is in canvas. -/
theorem bres_loop_y_mem (inc bound : Pt) (dx2 dy2 dz2 : Int) :
    ∀ n x y z e1 e2 q,
      q ∈ (bres_loop_y inc bound dx2 dy2 dz2 n x y z e1 e2).1 →
      out_of_canvas q bound = false := by
  intro n
  induction n with
  | zero =>
    intro x y z e1 e2 q hq
    simp [bres_loop_y] at hq
  | succ n ih =>
    intro x y z e1 e2 q hq
    simp only [bres_loop_y] at hq
    split_ifs at hq
    all_goals
      first
        | exact absurd hq (List.not_mem_nil _)
        | (rcases List.mem_cons.mp hq with h | h
           · subst h
             simp_all
           · exact ih _ _ _ _ _ _ h)

/-- Every point pushed by the frame-driven line loop is in canvas. -/
theorem bres_loop_z_mem (inc bound : Pt) (dx2 dy2 dz2 : Int) :
    ∀ n x y z e1 e2 q,
      q ∈ (bres_loop_z inc bound dx2 dy2 dz2 n x y z e1 e2).1 →
      out_of_canvas q bound = false := by
  intro n
  induction n with
  | zero =>
    intro x y z e1 e2 q hq
    simp [bres_loop_z] at hq
  | succ n ih =>
    intro x y z e1 e2 q hq
    simp only [bres_loop_z] at hq
    split_ifs at hq
    all_goals
      first
        | exact absurd hq (List.not_mem_nil _)
        | (rcases List.mem_cons.mp hq with h | h
           · subst h
             simp_all
           · exact ih _ _ _ _ _ _ h)

/-- Every point pushed by one line pass is in canvas. -/
theorem bres_pass_mem (bound dir inc cur : Pt) (q : Pt)
    (hq : q ∈ (bres_pass bound dir inc cur).1) :
    out_of_canvas q bound = false := by
  simp only [bres_pass] at hq
  split at hq
  · exact bres_loop_x_mem _ _ _ _ _ _ _ _ _ _ _ _ hq
  · split at hq
    · exact bres_loop_y_mem _ _ _ _ _ _ _ _ _ _ _ _ hq
    · exact bres_loop_z_mem _ _ _ _ _ _ _ _ _ _ _ _ hq

/-- Every point produced by the `bresenham` ray is in canvas. -/
theorem bresenham_mem (bound dir inc : Pt) :
    ∀ fuel cur q, q ∈ bresenham bound dir inc fuel cur →
      out_of_canvas q bound = false := by
  intro fuel
  induction fuel with
  | zero =>
    intro cur q hq
    simp [bresenham] at hq
  | succ fuel ih =>
    intro cur q hq
    simp only [bresenham] at hq
    split at hq
    · exact bres_pass_mem _ _ _ _ _ hq
    · rcases List.mem_append.mp hq with h | h
      · exact bres_pass_mem _ _ _ _ _ h
      · exact ih _ _ h

/-- Every point pushed by the column-driven segment loop is in canvas. -/
theorem seg_loop_x_mem (inc bound tgt : Pt) (dx2 dy2 dz2 : Int) :
    ∀ n x y z e1 e2 q,
      q ∈ (seg_loop_x inc bound tgt dx2 dy2 dz2 n x y z e1 e2).1 →
      out_of_canvas q bound = false := by
  intro n
  induction n with
  | zero =>
    intro x y z e1 e2 q hq
    simp [seg_loop_x] at hq
  | succ n ih =>
    intro x y z e1 e2 q hq
    simp only [seg_loop_x] at hq
    split_ifs at hq
    all_goals
      first
        | exact absurd hq (List.not_mem_nil _)
        | (rcases List.mem_cons.mp hq with h | h
           · subst h
             simp_all
           · exact ih _ _ _ _ _ _ h)

/-- Every point pushed by the row-driven segment loop is in canvas. -/
theorem seg_loop_y_mem (inc bound tgt : Pt) (dx2 dy2 dz2 : Int) :
    ∀ n x y z e1 e2 q,
      q ∈ (seg_loop_y inc bound tgt dx2 dy2 dz2 n x y z e1 e2).1 →
      out_of_canvas q bound = false := by
  intro n
  induction n with
  | zero =>
    intro x y z e1 e2 q hq
    simp [seg_loop_y] at hq
  | succ n ih =>
    intro x y z e1 e2 q hq
    simp only [seg_loop_y] at hq
    split_ifs at hq
    all_goals
      first
        | exact absurd hq (List.not_mem_nil _)
        | (rcases List.mem_cons.mp hq with h | h
           · subst h
             simp_all
           · exact ih _ _ _ _ _ _ h)

/-- Every point pushed by the frame-driven segment loop is in canvas. -/
theorem seg_loop_z_mem (inc bound tgt : Pt) (dx2 dy2 dz2 : Int) :
    ∀ n x y z e1 e2 q,
      q ∈ (seg_loop_z inc bound tgt dx2 dy2 dz2 n x y z e1 e2).1 →
      out_of_canvas q bound = false := by
  intro n
  induction n with
  | zero =>
    intro x y z e1 e2 q hq
    simp [seg_loop_z] at hq
  | succ n ih =>
    intro x y z e1 e2 q hq
    simp only [seg_loop_z] at hq
    split_ifs at hq
    all_goals
      first
        | exact absurd hq (List.not_mem_nil _)
        | (rcases List.mem_cons.mp hq with h | h
           · subst h
             simp_all
           · exact ih _ _ _ _ _ _ h)

/-- Every point pushed by one segment pass is in canvas. -/
theorem seg_pass_mem (bound tgt inc : Pt) (Adx Ady Adz : Nat)
    (dx2 dy2 dz2 : Int) (cur : Pt) (q : Pt)
    (hq : q ∈ (seg_pass bound tgt inc Adx Ady Adz dx2 dy2 dz2 cur).1) :
    out_of_canvas q bound = false := by
  simp only [seg_pass] at hq
  split at hq
  · exact seg_loop_x_mem _ _ _ _ _ _ _ _ _ _ _ _ _ hq
  · split at hq
    · exact seg_loop_y_mem _ _ _ _ _ _ _ _ _ _ _ _ _ hq
    · exact seg_loop_z_mem _ _ _ _ _ _ _ _ _ _ _ _ _ hq

/-- Every point produced by the segment `while` loop is in canvas. -/
theorem seg_while_mem (bound tgt inc : Pt) (Adx Ady Adz : Nat)
    (dx2 dy2 dz2 : Int) :
    ∀ fuel cur q,
      q ∈ seg_while bound tgt inc Adx Ady Adz dx2 dy2 dz2 fuel cur →
      out_of_canvas q bound = false := by
  intro fuel
  induction fuel with
  | zero =>
    intro cur q hq
    simp [seg_while] at hq
  | succ fuel ih =>
    intro cur q hq
    simp only [seg_while] at hq
    split at hq
    · rcases List.mem_append.mp hq with h | h
      · exact seg_pass_mem _ _ _ _ _ _ _ _ _ _ _ h
      · exact ih _ _ h
    · simp at hq

/-- Each point pushed by the column-driven line loop advances `x` by `inc.x`. -/
theorem bres_loop_x_chain (inc bound : Pt) (dx2 dy2 dz2 : Int) :
    ∀ n x y z e1 e2,
      List.Chain' (fun a b : Pt => b.x = a.x + inc.x)
        ((⟨x, y, z⟩ : Pt) :: (bres_loop_x inc bound dx2 dy2 dz2 n x y z e1 e2).1) := by
  intro n
  induction n with
  | zero =>
    intro x y z e1 e2
    simp [bres_loop_x]
  | succ n ih =>
    intro x y z e1 e2
    simp only [bres_loop_x]
    split_ifs
    all_goals
      first
        | (refine List.chain'_cons.mpr ⟨rfl, ?_⟩
           exact ih _ _ _ _ _)
        | simp

/-- Each point pushed by the row-driven line loop advances `y` by `inc.y`. -/
theorem bres_loop_y_chain (inc bound : Pt) (dx2 dy2 dz2 : Int) :
    ∀ n x y z e1 e2,
      List.Chain' (fun a b : Pt => b.y = a.y + inc.y)
        ((⟨x, y, z⟩ : Pt) :: (bres_loop_y inc bound dx2 dy2 dz2 n x y z e1 e2).1) := by
  intro n
  induction n with
  | zero =>
    intro x y z e1 e2
    simp [bres_loop_y]
  | succ n ih =>
    intro x y z e1 e2
    simp only [bres_loop_y]
    split_ifs
    all_goals
      first
        | (refine List.chain'_cons.mpr ⟨rfl, ?_⟩
           exact ih _ _ _ _ _)
        | simp

/-- Each point pushed by the frame-driven line loop advances `z` by `inc.z`. -/
theorem bres_loop_z_chain (inc bound : Pt) (dx2 dy2 dz2 : Int) :
    ∀ n x y z e1 e2,
      List.Chain' (fun a b : Pt => b.z = a.z + inc.z)
        ((⟨x, y, z⟩ : Pt) :: (bres_loop_z inc bound dx2 dy2 dz2 n x y z e1 e2).1) := by
  intro n
  induction n with
  | zero =>
    intro x y z e1 e2
    simp [bres_loop_z]
  | succ n ih =>
    intro x y z e1 e2
    simp only [bres_loop_z]
    split_ifs
    all_goals
      first
        | (refine List.chain'_cons.mpr ⟨rfl, ?_⟩
           exact ih _ _ _ _ _)
        | simp

/-- When the column-driven loop did not break, its final point is the last
element of the produced chain. -/
theorem bres_loop_x_last (inc bound : Pt) (dx2 dy2 dz2 : Int) :
    ∀ n x y z e1 e2,
      out_of_canvas (bres_loop_x inc bound dx2 dy2 dz2 n x y z e1 e2).2 bound
          = false →
      ((⟨x, y, z⟩ : Pt) :: (bres_loop_x inc bound dx2 dy2 dz2 n x y z e1 e2).1).getLast?
        = some (bres_loop_x inc bound dx2 dy2 dz2 n x y z e1 e2).2 := by
  intro n
  induction n with
  | zero =>
    intro x y z e1 e2 h
    simp [bres_loop_x]
  | succ n ih =>
    intro x y z e1 e2 h
    simp only [bres_loop_x] at h ⊢
    split_ifs at h ⊢
    all_goals simp_all

/-- When the row-driven loop did not break, its final point is the last
element of the produced chain. -/
theorem bres_loop_y_last (inc bound : Pt) (dx2 dy2 dz2 : Int) :
    ∀ n x y z e1 e2,
      out_of_canvas (bres_loop_y inc bound dx2 dy2 dz2 n x y z e1 e2).2 bound
          = false →
      ((⟨x, y, z⟩ : Pt) :: (bres_loop_y inc bound dx2 dy2 dz2 n x y z e1 e2).1).getLast?
        = some (bres_loop_y inc bound dx2 dy2 dz2 n x y z e1 e2).2 := by
  intro n
  induction n with
  | zero =>
    intro x y z e1 e2 h
    simp [bres_loop_y]
  | succ n ih =>
    intro x y z e1 e2 h
    simp only [bres_loop_y] at h ⊢
    split_ifs at h ⊢
    all_goals simp_all

/-- When the frame-driven loop did not break, its final point is the last
element of the produced chain. -/
theorem bres_loop_z_last (inc bound : Pt) (dx2 dy2 dz2 : Int) :
    ∀ n x y z e1 e2,
      out_of_canvas (bres_loop_z inc bound dx2 dy2 dz2 n x y z e1 e2).2 bound
          = false →
      ((⟨x, y, z⟩ : Pt) :: (bres_loop_z inc bound dx2 dy2 dz2 n x y z e1 e2).1).getLast?
        = some (bres_loop_z inc bound dx2 dy2 dz2 n x y z e1 e2).2 := by
  intro n
  induction n with
  | zero =>
    intro x y z e1 e2 h
    simp [bres_loop_z]
  | succ n ih =>
    intro x y z e1 e2 h
    simp only [bres_loop_z] at h ⊢
    split_ifs at h ⊢
    all_goals simp_all

/-- Lemma: `bres_pass` resolves to the column loop when the column drives. -/
theorem bres_pass_eq_x (bound dir inc cur : Pt)
    (hX : dir.x.natAbs ≥ dir.y.natAbs ∧ dir.x.natAbs ≥ dir.z.natAbs) :
    bres_pass bound dir inc cur
      = bres_loop_x inc bound (2 * (dir.x.natAbs : Int)) (2 * (dir.y.natAbs : Int))
          (2 * (dir.z.natAbs : Int)) dir.x.natAbs cur.x cur.y cur.z
          (2 * (dir.y.natAbs : Int) - (dir.x.natAbs : Int))
          (2 * (dir.z.natAbs : Int) - (dir.x.natAbs : Int)) := by
  simp only [bres_pass]
  rw [if_pos hX]

/-- Lemma: `bres_pass` resolves to the row loop when the row drives. -/
theorem bres_pass_eq_y (bound dir inc cur : Pt)
    (hnx : ¬(dir.x.natAbs ≥ dir.y.natAbs ∧ dir.x.natAbs ≥ dir.z.natAbs))
    (hY : dir.y.natAbs > dir.x.natAbs ∧ dir.y.natAbs ≥ dir.z.natAbs) :
    bres_pass bound dir inc cur
      = bres_loop_y inc bound (2 * (dir.x.natAbs : Int)) (2 * (dir.y.natAbs : Int))
          (2 * (dir.z.natAbs : Int)) dir.y.natAbs cur.x cur.y cur.z
          (2 * (dir.x.natAbs : Int) - (dir.y.natAbs : Int))
          (2 * (dir.z.natAbs : Int) - (dir.y.natAbs : Int)) := by
  simp only [bres_pass]
  rw [if_neg hnx, if_pos hY]

/-- Lemma: `bres_pass` resolves to the frame loop otherwise. -/
theorem bres_pass_eq_z (bound dir inc cur : Pt)
    (hnx : ¬(dir.x.natAbs ≥ dir.y.natAbs ∧ dir.x.natAbs ≥ dir.z.natAbs))
    (hny : ¬(dir.y.natAbs > dir.x.natAbs ∧ dir.y.natAbs ≥ dir.z.natAbs)) :
    bres_pass bound dir inc cur
      = bres_loop_z inc bound (2 * (dir.x.natAbs : Int)) (2 * (dir.y.natAbs : Int))
          (2 * (dir.z.natAbs : Int)) dir.z.natAbs cur.x cur.y cur.z
          (2 * (dir.y.natAbs : Int) - (dir.z.natAbs : Int))
          (2 * (dir.x.natAbs : Int) - (dir.z.natAbs : Int)) := by
  simp only [bres_pass]
  rw [if_neg hnx, if_neg hny]

/-- Lifts a per-pass chain invariant through the `bresenham` recursion. -/
theorem bresenham_chain_of_pass (bound dir inc : Pt) (f : Pt → Int) (step : Int)
    (hchain : ∀ cur : Pt, List.Chain' (fun a b => f b = f a + step)
        (cur :: (bres_pass bound dir inc cur).1))
    (hlast : ∀ cur : Pt,
        out_of_canvas (bres_pass bound dir inc cur).2 bound = false →
        (cur :: (bres_pass bound dir inc cur).1).getLast?
          = some (bres_pass bound dir inc cur).2) :
    ∀ fuel cur, List.Chain' (fun a b => f b = f a + step)
      (cur :: bresenham bound dir inc fuel cur) := by
  intro fuel
  induction fuel with
  | zero =>
    intro cur
    simp [bresenham]
  | succ fuel ih =>
    intro cur
    simp only [bresenham]
    split
    · exact hchain cur
    · rename_i hout
      rw [← List.cons_append]
      refine List.Chain'.append (hchain cur) ((List.chain'_cons'.mp (ih _)).2) ?_
      intro a ha b hb
      rw [hlast cur (by simpa using hout)] at ha
      simp only [Option.mem_def, Option.some.injEq] at ha
      subst ha
      exact (List.chain'_cons'.mp (ih _)).1 b hb

/-- Along a `bresenham` ray with a column-driving direction, each point
advances `x` by `inc.x`. -/
theorem bresenham_chain_x (bound dir inc : Pt)
    (hX : dir.x.natAbs ≥ dir.y.natAbs ∧ dir.x.natAbs ≥ dir.z.natAbs)
    (fuel : Nat) (cur : Pt) :
    List.Chain' (fun a b : Pt => b.x = a.x + inc.x)
      (cur :: bresenham bound dir inc fuel cur) :=
  bresenham_chain_of_pass bound dir inc (fun p => p.x) inc.x
    (fun c => by
      rw [bres_pass_eq_x bound dir inc c hX]
      exact bres_loop_x_chain inc bound _ _ _ _ c.x c.y c.z _ _)
    (fun c h => by
      rw [bres_pass_eq_x bound dir inc c hX] at h ⊢
      exact bres_loop_x_last inc bound _ _ _ _ c.x c.y c.z _ _ h)
    fuel cur

/-- Along a `bresenham` ray with a row-driving direction, each point advances
`y` by `inc.y`. -/
theorem bresenham_chain_y (bound dir inc : Pt)
    (hnx : ¬(dir.x.natAbs ≥ dir.y.natAbs ∧ dir.x.natAbs ≥ dir.z.natAbs))
    (hY : dir.y.natAbs > dir.x.natAbs ∧ dir.y.natAbs ≥ dir.z.natAbs)
    (fuel : Nat) (cur : Pt) :
    List.Chain' (fun a b : Pt => b.y = a.y + inc.y)
      (cur :: bresenham bound dir inc fuel cur) :=
  bresenham_chain_of_pass bound dir inc (fun p => p.y) inc.y
    (fun c => by
      rw [bres_pass_eq_y bound dir inc c hnx hY]
      exact bres_loop_y_chain inc bound _ _ _ _ c.x c.y c.z _ _)
    (fun c h => by
      rw [bres_pass_eq_y bound dir inc c hnx hY] at h ⊢
      exact bres_loop_y_last inc bound _ _ _ _ c.x c.y c.z _ _ h)
    fuel cur

/-- Along a `bresenham` ray with a frame-driving direction, each point
advances `z` by `inc.z`. -/
theorem bresenham_chain_z (bound dir inc : Pt)
    (hnx : ¬(dir.x.natAbs ≥ dir.y.natAbs ∧ dir.x.natAbs ≥ dir.z.natAbs))
    (hny : ¬(dir.y.natAbs > dir.x.natAbs ∧ dir.y.natAbs ≥ dir.z.natAbs))
    (fuel : Nat) (cur : Pt) :
    List.Chain' (fun a b : Pt => b.z = a.z + inc.z)
      (cur :: bresenham bound dir inc fuel cur) :=
  bresenham_chain_of_pass bound dir inc (fun p => p.z) inc.z
    (fun c => by
      rw [bres_pass_eq_z bound dir inc c hnx hny]
      exact bres_loop_z_chain inc bound _ _ _ _ c.x c.y c.z _ _)
    (fun c h => by
      rw [bres_pass_eq_z bound dir inc c hnx hny] at h ⊢
      exact bres_loop_z_last inc bound _ _ _ _ c.x c.y c.z _ _ h)
    fuel cur

/-- Lemma: `get_line_points` for a nonzero direction is the reversed negative ray,
then the seed point, then the positive ray. -/
theorem get_line_points_eq (fuel : Nat) (point dir bound : Pt)
    (h : ¬(dir.x = 0 ∧ dir.y = 0 ∧ dir.z = 0)) :
    get_line_points fuel point dir bound
      = (bresenham bound dir (neg3 (inc_of dir)) fuel point).reverse
        ++ point :: bresenham bound dir (inc_of dir) fuel point := by
  unfold get_line_points
  rw [if_neg h]
  simp

/-- Gluing the two rays of a full line: if the positive ray advances a
coordinate `f` by `step` from the seed and the negative ray advances it by
`-step`, then the assembled line advances `f` by `step` throughout. -/
theorem chain_concat_rays (f : Pt → Int) (step : Int) (point : Pt)
    (pos neg : List Pt)
    (hpos : List.Chain' (fun a b => f b = f a + step) (point :: pos))
    (hneg : List.Chain' (fun a b => f b = f a + (-step)) (point :: neg)) :
    List.Chain' (fun a b => f b = f a + step)
      (neg.reverse ++ point :: pos) := by
  have h1 : List.Chain' (fun a b => f b = f a + step) (neg.reverse ++ [point]) := by
    rw [← List.reverse_cons, List.chain'_reverse]
    refine hneg.imp ?_
    intro a b hab
    simp only [flip]
    omega
  have h2 : List.Chain' (fun a b => f b = f a + step)
      ((neg.reverse ++ [point]) ++ pos) := by
    refine List.Chain'.append h1 ((List.chain'_cons'.mp hpos).2) ?_
    intro a ha b hb
    rw [List.getLast?_concat] at ha
    simp only [Option.mem_def, Option.some.injEq] at ha
    subst ha
    exact (List.chain'_cons'.mp hpos).1 b hb
  simpa using h2

/-- C4: for every seed point, nonzero direction and positive bound,
`get_line_points` returns the concatenation (reversed negative-direction ray,
seed point, positive-direction ray); the seed point is an element of the
result; and the result is ordered by position along the line: the driving-axis
coordinate advances by the fixed signed unit step `drive_inc dir` between
every pair of consecutive points. -/
theorem c4_line_concat_ordered (fuel : Nat) (point dir bound : Pt)
    (hdir : dir ≠ (⟨0, 0, 0⟩ : Pt))
    (hb : 0 < bound.x ∧ 0 < bound.y ∧ 0 < bound.z) :
    get_line_points fuel point dir bound
      = (bresenham bound dir (neg3 (inc_of dir)) fuel point).reverse
        ++ point :: bresenham bound dir (inc_of dir) fuel point
    ∧ point ∈ get_line_points fuel point dir bound
    ∧ List.Chain' (fun a b : Pt =>
        drive_coord dir b = drive_coord dir a + drive_inc dir)
      (get_line_points fuel point dir bound) := by
  have hguard : ¬(dir.x = 0 ∧ dir.y = 0 ∧ dir.z = 0) := by
    intro hc
    apply hdir
    cases dir
    simp_all
  have heq := get_line_points_eq fuel point dir bound hguard
  refine ⟨heq, ?_, ?_⟩
  · rw [heq]
    exact List.mem_append_right _ (List.mem_cons_self _ _)
  · rw [heq]
    by_cases hX : dir.x.natAbs ≥ dir.y.natAbs ∧ dir.x.natAbs ≥ dir.z.natAbs
    · have hdc : ∀ p : Pt, drive_coord dir p = p.x := by
        intro p
        unfold drive_coord
        rw [if_pos hX]
      have hdi : drive_inc dir = (inc_of dir).x := by
        unfold drive_inc
        rw [hdc]
      have hpos := bresenham_chain_x bound dir (inc_of dir) hX fuel point
      have hneg : List.Chain' (fun a b : Pt => b.x = a.x + (-(inc_of dir).x))
          (point :: bresenham bound dir (neg3 (inc_of dir)) fuel point) := by
        refine (bresenham_chain_x bound dir (neg3 (inc_of dir)) hX fuel point).imp ?_
        intro a b hab
        simpa [neg3] using hab
      refine (chain_concat_rays (fun p => p.x) ((inc_of dir).x) point _ _
        hpos hneg).imp ?_
      intro a b hab
      rw [hdc, hdc, hdi]
      exact hab
    · by_cases hY : dir.y.natAbs > dir.x.natAbs ∧ dir.y.natAbs ≥ dir.z.natAbs
      · have hdc : ∀ p : Pt, drive_coord dir p = p.y := by
          intro p
          unfold drive_coord
          rw [if_neg hX, if_pos hY]
        have hdi : drive_inc dir = (inc_of dir).y := by
          unfold drive_inc
          rw [hdc]
        have hpos := bresenham_chain_y bound dir (inc_of dir) hX hY fuel point
        have hneg : List.Chain' (fun a b : Pt => b.y = a.y + (-(inc_of dir).y))
            (point :: bresenham bound dir (neg3 (inc_of dir)) fuel point) := by
          refine (bresenham_chain_y bound dir (neg3 (inc_of dir)) hX hY fuel point).imp ?_
          intro a b hab
          simpa [neg3] using hab
        refine (chain_concat_rays (fun p => p.y) ((inc_of dir).y) point _ _
          hpos hneg).imp ?_
        intro a b hab
        rw [hdc, hdc, hdi]
        exact hab
      · have hdc : ∀ p : Pt, drive_coord dir p = p.z := by
          intro p
          unfold drive_coord
          rw [if_neg hX, if_neg hY]
        have hdi : drive_inc dir = (inc_of dir).z := by
          unfold drive_inc
          rw [hdc]
        have hpos := bresenham_chain_z bound dir (inc_of dir) hX hY fuel point
        have hneg : List.Chain' (fun a b : Pt => b.z = a.z + (-(inc_of dir).z))
            (point :: bresenham bound dir (neg3 (inc_of dir)) fuel point) := by
          refine (bresenham_chain_z bound dir (neg3 (inc_of dir)) hX hY fuel point).imp ?_
          intro a b hab
          simpa [neg3] using hab
        refine (chain_concat_rays (fun p => p.z) ((inc_of dir).z) point _ _
          hpos hneg).imp ?_
        intro a b hab
        rw [hdc, hdc, hdi]
        exact hab

/-- C4 witness: seed `(2,2,0)`, direction `(1,0,0)`, bound `(5,5,1)`. -/
theorem c4_line_concat_ordered_witness :
    ((⟨1, 0, 0⟩ : Pt) ≠ (⟨0, 0, 0⟩ : Pt)) ∧
    ((0 : Int) < 5 ∧ (0 : Int) < 5 ∧ (0 : Int) < 1) ∧
    (⟨2, 2, 0⟩ : Pt) ∈ get_line_points 10 ⟨2, 2, 0⟩ ⟨1, 0, 0⟩ ⟨5, 5, 1⟩ :=
  ⟨by decide, by decide,
    (c4_line_concat_ordered 10 ⟨2, 2, 0⟩ ⟨1, 0, 0⟩ ⟨5, 5, 1⟩ (by decide)
      ⟨by decide, by decide, by decide⟩).2.1⟩

/-- Every element of a segment rasterization except the last is in canvas
(the loop-generated points are canvas-checked before being pushed, and the
first pushed point is the in-canvas endpoint after the possible swap). -/
theorem get_line_seg_points_dropLast_mem (fuel : Nat) (s e bound : Pt) :
    ∀ p ∈ (get_line_seg_points fuel s e bound).dropLast,
      out_of_canvas p bound = false := by
  intro p hp
  by_cases h1 : s.x = e.x ∧ s.y = e.y ∧ s.z = e.z
  · unfold get_line_seg_points at hp
    rw [if_pos h1] at hp
    simp at hp
  · by_cases h2 : out_of_canvas s bound = true ∧ out_of_canvas e bound = true
    · unfold get_line_seg_points at hp
      rw [if_neg h1, if_pos h2] at hp
      simp at hp
    · by_cases h3 : out_of_canvas s bound = true ∧ out_of_canvas e bound = false
      · unfold get_line_seg_points at hp
        rw [if_neg h1, if_neg h2] at hp
        simp only [if_pos h3] at hp
        rw [← List.cons_append, List.dropLast_concat] at hp
        rcases List.mem_cons.mp hp with h | h
        · subst h
          exact h3.2
        · exact seg_while_mem _ _ _ _ _ _ _ _ _ _ _ _ h
      · have hs : out_of_canvas s bound = false := by
          cases hcs : out_of_canvas s bound with
          | false => rfl
          | true =>
            exfalso
            cases hce : out_of_canvas e bound with
            | false => exact h3 ⟨hcs, hce⟩
            | true => exact h2 ⟨hcs, hce⟩
        unfold get_line_seg_points at hp
        rw [if_neg h1, if_neg h2] at hp
        simp only [if_neg h3] at hp
        rw [← List.cons_append, List.dropLast_concat] at hp
        rcases List.mem_cons.mp hp with h | h
        · subst h
          exact hs
        · exact seg_while_mem _ _ _ _ _ _ _ _ _ _ _ _ h

/-- Any member of a list lies in its `dropLast` or is its last element. -/
theorem mem_dropLast_or_getLast : ∀ (l : List Pt) (p : Pt), p ∈ l →
    p ∈ l.dropLast ∨ l.getLast? = some p := by
  intro l
  induction l with
  | nil =>
    intro p hp
    simp at hp
  | cons a t ih =>
    intro p hp
    cases t with
    | nil =>
      simp at hp
      subst hp
      right
      simp
    | cons b t2 =>
      rcases List.mem_cons.mp hp with h | h
      · subst h
        left
        rw [List.dropLast_cons₂]
        exact List.mem_cons_self _ _
      · rcases ih p h with h2 | h2
        · left
          rw [List.dropLast_cons₂]
          exact List.mem_cons_of_mem _ h2
        · right
          rw [List.getLast?_cons_cons]
          exact h2

/-- Every point of the polygon-to-segments expansion is in canvas except
possibly the final element of the segment rasterization of some pair of
consecutive polygon vertices. -/
theorem ellipse_segs_mem (fuel : Nat) (centre bound : Pt) :
    ∀ (p0 : Int × Int) (rest : List (Int × Int)) (p : Pt),
      p ∈ ellipse_segs fuel centre bound p0 rest →
      out_of_canvas p bound = false ∨
      ∃ q ∈ (p0 :: rest).zip rest,
        (get_line_seg_points fuel ⟨q.1.1, q.1.2, centre.z⟩
          ⟨q.2.1, q.2.2, centre.z⟩ bound).getLast? = some p := by
  intro p0 rest
  induction rest generalizing p0 with
  | nil =>
    intro p hp
    simp [ellipse_segs] at hp
  | cons b t ih =>
    intro p hp
    simp only [ellipse_segs] at hp
    rcases List.mem_append.mp hp with h | h
    · rcases mem_dropLast_or_getLast _ p h with h2 | h2
      · exact Or.inl (get_line_seg_points_dropLast_mem fuel _ _ bound p h2)
      · refine Or.inr ⟨(p0, b), ?_, h2⟩
        rw [List.zip_cons_cons]
        exact List.mem_cons_self _ _
    · rcases ih b p h with h2 | ⟨q, hq, hlast⟩
      · exact Or.inl h2
      · refine Or.inr ⟨q, ?_, hlast⟩
        rw [List.zip_cons_cons]
        exact List.mem_cons_of_mem _ hq

/-- C3 (amended): every point returned by `get_line_points` other than the
seed point is in canvas; every point returned by `get_line_seg_points` other
than its final element is in canvas; and every point returned by
`get_ellipse_points` — whose `ellipse2Poly` vertex polygon is external, so
the statement quantifies over every possible vertex list — is in canvas
except possibly the final element of the segment rasterization of a pair of
consecutive polygon vertices.  (The unconditionally inserted seed point and
the unconditionally appended final segment endpoints are the only possible
out-of-canvas elements; see the counterexample.) -/
theorem c3_amended (fuel : Nat) (point dir s e centre bound : Pt)
    (v : List (Int × Int)) :
    (∀ p ∈ get_line_points fuel point dir bound,
        p ≠ point → out_of_canvas p bound = false) ∧
    (∀ p ∈ (get_line_seg_points fuel s e bound).dropLast,
        out_of_canvas p bound = false) ∧
    (∀ p ∈ get_ellipse_points_of_poly fuel centre v bound,
        out_of_canvas p bound = false ∨
        ∃ q ∈ v.zip v.tail,
          (get_line_seg_points fuel ⟨q.1.1, q.1.2, centre.z⟩
            ⟨q.2.1, q.2.2, centre.z⟩ bound).getLast? = some p) := by
  refine ⟨?_, fun p hp => get_line_seg_points_dropLast_mem fuel s e bound p hp, ?_⟩
  · intro p hp hne
    by_cases hz : dir.x = 0 ∧ dir.y = 0 ∧ dir.z = 0
    · unfold get_line_points at hp
      rw [if_pos hz] at hp
      simp at hp
    · rw [get_line_points_eq fuel point dir bound hz] at hp
      rcases List.mem_append.mp hp with h | h
      · exact bresenham_mem _ _ _ _ _ _ (List.mem_reverse.mp h)
      · rcases List.mem_cons.mp h with h1 | h1
        · exact absurd h1 hne
        · exact bresenham_mem _ _ _ _ _ _ h1
  · intro p hp
    cases v with
    | nil =>
      simp [get_ellipse_points_of_poly] at hp
    | cons p0 rest =>
      simp only [get_ellipse_points_of_poly] at hp
      exact ellipse_segs_mem fuel centre bound p0 rest p hp

/-- C3 amended witness: an interior point of a concrete segment
rasterization (also exercising the line conjunct's quantifiers), and the same
point reached through a concrete two-vertex polygon expansion. -/
theorem c3_amended_witness :
    ((⟨1, 0, 0⟩ : Pt) ∈ (get_line_seg_points 100 ⟨0, 0, 0⟩ ⟨2, 0, 0⟩ ⟨3, 1, 1⟩).dropLast) ∧
    ((⟨1, 0, 0⟩ : Pt) ∈ get_ellipse_points_of_poly 100 ⟨0, 0, 0⟩
        [(0, 0), (2, 0)] ⟨3, 1, 1⟩) ∧
    out_of_canvas ⟨1, 0, 0⟩ ⟨3, 1, 1⟩ = false ∧
    (out_of_canvas ⟨1, 0, 0⟩ ⟨3, 1, 1⟩ = false ∨
      ∃ q ∈ ([(0, 0), (2, 0)] : List (Int × Int)).zip [(2, 0)],
        (get_line_seg_points 100 ⟨q.1.1, q.1.2, 0⟩
          ⟨q.2.1, q.2.2, 0⟩ ⟨3, 1, 1⟩).getLast? = some ⟨1, 0, 0⟩) :=
  ⟨by decide, by decide,
    (c3_amended 100 ⟨0, 0, 0⟩ ⟨1, 0, 0⟩ ⟨0, 0, 0⟩ ⟨2, 0, 0⟩ ⟨0, 0, 0⟩ ⟨3, 1, 1⟩
      [(0, 0), (2, 0)]).2.1 ⟨1, 0, 0⟩ (by decide),
    (c3_amended 100 ⟨0, 0, 0⟩ ⟨1, 0, 0⟩ ⟨0, 0, 0⟩ ⟨2, 0, 0⟩ ⟨0, 0, 0⟩ ⟨3, 1, 1⟩
      [(0, 0), (2, 0)]).2.2 ⟨1, 0, 0⟩ (by decide)⟩

/-- C10: the gradient-threshold samplers dereference the first and last
rasterized point unconditionally, so their result is undefined (`none`)
exactly when the rasterization is empty; and the rasterization is empty
exactly for the zero direction (line variant), respectively for equal
endpoints or two out-of-canvas endpoints (segment variant). -/
theorem c10_samplers_need_nonempty (F : Frames) (point dir s e : Pt) (T : ℚ)
    (fuel : Nat) :
    (cv_line_pts_scharr_geq_T F point dir T fuel = none
      ↔ get_line_points fuel point dir (bound_of F) = []) ∧
    (get_line_points fuel point dir (bound_of F) = [] ↔ dir = (⟨0, 0, 0⟩ : Pt)) ∧
    (cv_line_seg_pts_scharr_geq_T F s e T fuel = none
      ↔ get_line_seg_points fuel s e (bound_of F) = []) ∧
    (get_line_seg_points fuel s e (bound_of F) = []
      ↔ (s = e ∨ (out_of_canvas s (bound_of F) = true
                  ∧ out_of_canvas e (bound_of F) = true))) := by
  refine ⟨?_, ?_, ?_, ?_⟩
  · constructor
    · intro hnone
      by_contra hne
      obtain ⟨a, l, hal⟩ := List.exists_cons_of_ne_nil hne
      unfold cv_line_pts_scharr_geq_T at hnone
      rw [hal] at hnone
      simp at hnone
    · intro hnil
      unfold cv_line_pts_scharr_geq_T
      rw [hnil]
  · constructor
    · intro hnil
      by_contra hne
      have hguard : ¬(dir.x = 0 ∧ dir.y = 0 ∧ dir.z = 0) := by
        intro hc
        apply hne
        cases dir
        simp_all
      rw [get_line_points_eq fuel point dir (bound_of F) hguard] at hnil
      simp at hnil
    · intro hd
      subst hd
      unfold get_line_points
      simp
  · constructor
    · intro hnone
      by_contra hne
      obtain ⟨a, l, hal⟩ := List.exists_cons_of_ne_nil hne
      unfold cv_line_seg_pts_scharr_geq_T at hnone
      rw [hal] at hnone
      simp at hnone
    · intro hnil
      unfold cv_line_seg_pts_scharr_geq_T
      rw [hnil]
  · constructor
    · intro hnil
      by_cases h1 : s.x = e.x ∧ s.y = e.y ∧ s.z = e.z
      · left
        cases s
        cases e
        simp_all
      · by_cases h2 : out_of_canvas s (bound_of F) = true
            ∧ out_of_canvas e (bound_of F) = true
        · right
          exact h2
        · exfalso
          unfold get_line_seg_points at hnil
          rw [if_neg h1, if_neg h2] at hnil
          simp at hnil
    · intro h
      rcases h with h | h
      · subst h
        unfold get_line_seg_points
        simp
      · by_cases h1 : s.x = e.x ∧ s.y = e.y ∧ s.z = e.z
        · unfold get_line_seg_points
          rw [if_pos h1]
        · unfold get_line_seg_points
          rw [if_neg h1, if_pos h]
